import Mathlib

/-!
Verification of the issue-enrichment pipeline of the release-notes service
(`src/jira/jira_enricher.py`).  The Python source is shallowly embedded:
strings are modelled as `List Char` where character-level scanning matters,
Jira issues as ordered association lists (insertion-ordered dicts), and the
remote model call as a function from the attempt number to the outcome that
the corresponding `except` handler of `analyze_issue_with_ai` would classify.
-/

namespace ReleaseNotes

/-! ## Python `json.loads` validity

`_extract_json_from_text` decides, for several candidate substrings, whether
`json.loads` accepts them.  We model that acceptance as a boolean recursive
descent checker over `List Char`, following the JSON grammar that Python's
`json` module implements with its default (strict) settings: the four JSON
whitespace characters, strict strings (no raw control characters, the eight
single-character escapes and `\uXXXX`), numbers without leading zeros, the
literals `true` / `false` / `null`, and the Python extensions `NaN`,
`Infinity` and `-Infinity`. -/

def jsonWs (c : Char) : Bool :=
  c = ' ' || c = '\t' || c = '\n' || c = '\r'

def skipJsonWs (cs : List Char) : List Char :=
  cs.dropWhile jsonWs

def isDigitCh (c : Char) : Bool :=
  '0' ≤ c && c ≤ '9'

def isHexCh (c : Char) : Bool :=
  isDigitCh c || ('a' ≤ c && c ≤ 'f') || ('A' ≤ c && c ≤ 'F')

/-- The body of a JSON string after the opening quote: returns the remaining
input after the closing quote, or `none` if the body is ill-formed
(unterminated, raw control character, or bad escape). -/
def parseStringBody : List Char → Option (List Char)
  | [] => none
  | c :: rest =>
    if c = '"' then some rest
    else if c = '\\' then
      match rest with
      | [] => none
      | e :: rest2 =>
        if e = '"' || e = '\\' || e = '/' || e = 'b' || e = 'f' || e = 'n'
            || e = 'r' || e = 't' then
          parseStringBody rest2
        else if e = 'u' then
          match rest2 with
          | h1 :: h2 :: h3 :: h4 :: rest3 =>
            if isHexCh h1 && isHexCh h2 && isHexCh h3 && isHexCh h4 then
              parseStringBody rest3
            else none
          | _ => none
        else none
    else if c.toNat < 32 then none
    else parseStringBody rest

/-- Does `cs` start with the literal `lit`?  (Models a regex literal match or
Python `str.startswith`.) -/
def startsWithLit (lit : List Char) (cs : List Char) : Bool :=
  cs.take lit.length = lit

/-- A JSON number: `-?(0|[1-9][0-9]*)(\.[0-9]+)?([eE][+-]?[0-9]+)?`, the
regex Python's scanner uses.  Returns the remainder after the longest match,
or `none` when no number starts here. -/
def parseNumber (cs : List Char) : Option (List Char) :=
  let cs0 := match cs with
    | '-' :: rest => some rest
    | _ => some cs
  match cs0 with
  | none => none
  | some cs1 =>
    -- the integer part: 0, or a nonzero digit followed by digits
    let intPart : Option (List Char) :=
      match cs1 with
      | '0' :: rest => some rest
      | c :: rest => if '1' ≤ c && c ≤ '9' then some (rest.dropWhile isDigitCh) else none
      | [] => none
    match intPart with
    | none => none
    | some cs2 =>
      -- optional fraction: a dot followed by at least one digit
      let cs3 := match cs2 with
        | '.' :: c :: rest => if isDigitCh c then rest.dropWhile isDigitCh else cs2
        | _ => cs2
      -- optional exponent: e/E, optional sign, at least one digit
      let cs4 := match cs3 with
        | e :: rest =>
          if e = 'e' || e = 'E' then
            let rest2 := match rest with
              | s :: r => if s = '+' || s = '-' then r else rest
              | [] => rest
            match rest2 with
            | d :: r2 => if isDigitCh d then r2.dropWhile isDigitCh else cs3
            | [] => cs3
          else cs3
        | [] => cs3
      some cs4

/-- Parsing mode: a whole value, the members of an object (positioned at a
key), or the elements of an array (positioned at a value). -/
inductive PMode where
  | value
  | members
  | elements

/-- One recursive-descent step machine for JSON values/objects/arrays, with
fuel for termination (one unit of fuel is spent per nesting step; the top
level feeds it `length + 1`, which is ample since every recursive step first
consumes at least one character). -/
def parseJ : Nat → PMode → List Char → Option (List Char)
  | 0, _, _ => none
  | fuel + 1, .value, cs =>
    match cs with
    | [] => none
    | c :: rest =>
      if c = '"' then parseStringBody rest
      else if c = '{' then
        let cs1 := skipJsonWs rest
        match cs1 with
        | '}' :: r => some r
        | _ => parseJ fuel .members cs1
      else if c = '[' then
        let cs1 := skipJsonWs rest
        match cs1 with
        | ']' :: r => some r
        | _ => parseJ fuel .elements cs1
      else if startsWithLit ['t', 'r', 'u', 'e'] cs then some (cs.drop 4)
      else if startsWithLit ['f', 'a', 'l', 's', 'e'] cs then some (cs.drop 5)
      else if startsWithLit ['n', 'u', 'l', 'l'] cs then some (cs.drop 4)
      else if startsWithLit ['N', 'a', 'N'] cs then some (cs.drop 3)
      else if startsWithLit ['I', 'n', 'f', 'i', 'n', 'i', 't', 'y'] cs then some (cs.drop 8)
      else if startsWithLit ['-', 'I', 'n', 'f', 'i', 'n', 'i', 't', 'y'] cs then
        some (cs.drop 9)
      else parseNumber cs
  | fuel + 1, .members, cs =>
    match cs with
    | '"' :: rest =>
      match parseStringBody rest with
      | none => none
      | some afterKey =>
        match skipJsonWs afterKey with
        | ':' :: afterColon =>
          match parseJ fuel .value (skipJsonWs afterColon) with
          | none => none
          | some afterVal =>
            match skipJsonWs afterVal with
            | ',' :: r => parseJ fuel .members (skipJsonWs r)
            | '}' :: r => some r
            | _ => none
        | _ => none
    | _ => none
  | fuel + 1, .elements, cs =>
    match parseJ fuel .value cs with
    | none => none
    | some afterVal =>
      match skipJsonWs afterVal with
      | ',' :: r => parseJ fuel .elements (skipJsonWs r)
      | ']' :: r => some r
      | _ => none

/-- Python `json.loads` succeeds on the text: one value, possibly surrounded by
JSON whitespace, with nothing after it. -/
def isValidJson (cs : List Char) : Bool :=
  match parseJ (cs.length + 1) .value (skipJsonWs cs) with
  | some rest => (skipJsonWs rest).isEmpty
  | none => false

/-! ## `_extract_json_from_text` (lines 748-825)

Strategy 1: `re.findall` of triple-backtick fenced blocks (an optional
literal `json` tag and regex whitespace are consumed outside the lazy
capture group); each capture is `.strip()`ped and the first that
`json.loads` accepts is returned.
Strategy 2: a brace-depth walk from the first `\x7b` of the text.
Strategy 3: the `.strip()`ped whole text, if brace-delimited and valid.
Otherwise the empty string. -/

/-- The backtick character (the fence delimiter of the markdown regex). -/
def btick : Char := Char.ofNat 96

/-- Python regex `\s` / `str.strip` whitespace (the ASCII part; the inputs
of interest are ASCII). -/
def pyWs (c : Char) : Bool :=
  c = ' ' || c = '\t' || c = '\n' || c = '\r' || c = Char.ofNat 11 || c = Char.ofNat 12

/-- Python `str.strip()`: drop `pyWs` characters from both ends. -/
def stripChars (cs : List Char) : List Char :=
  (((cs.dropWhile pyWs).reverse).dropWhile pyWs).reverse

/-- Split at the first occurrence of a triple backtick: `some (pre, post)`
with the original list equal to `pre ++ [btick, btick, btick] ++ post`. -/
def findFence : List Char → Option (List Char × List Char)
  | [] => none
  | c :: rest =>
    if (c :: rest).take 3 = [btick, btick, btick] then some ([], rest.drop 2)
    else
      match findFence rest with
      | some (pre, post) => some (c :: pre, post)
      | none => none

/-- The captures of `re.findall` with the fence pattern, in scan order: after
an opening fence, the optional literal `json` tag and then regex whitespace
are consumed, and the lazy capture group runs to the next fence.  Fuel bounds
the recursion; the remaining text shrinks at every match. -/
def fencedGo : Nat → List Char → List (List Char)
  | 0, _ => []
  | fuel + 1, t =>
    match findFence t with
    | none => []
    | some (_, afterOpen) =>
      match findFence ((if afterOpen.take 4 = ['j', 's', 'o', 'n'] then afterOpen.drop 4
          else afterOpen).dropWhile pyWs) with
      | none => []
      | some (capture, rest) => capture :: fencedGo fuel rest

def fencedMatches (t : List Char) : List (List Char) :=
  fencedGo t.length t

/-- The brace-depth walk (lines 779-809).  `acc` holds the characters
consumed since the first `\x7b` (the walk's start), `inStr` / `esc` mirror
`in_string` / `escape_next`, and `depth` mirrors `brace_count` (an `Int`:
stray closing braces drive it negative exactly as in the source).  When the
depth returns to zero at a closing brace the candidate — always the span
from the walk's start to the current character — is parsed; on failure the
walk continues. -/
def braceWalkGo : List Char → List Char → Bool → Bool → Int → Option (List Char)
  | [], _, _, _, _ => none
  | c :: rest, acc, inStr, esc, depth =>
    if c = '"' && !esc then
      braceWalkGo rest (acc ++ [c]) (!inStr) false depth
    else if c = '\\' && inStr && !esc then
      braceWalkGo rest (acc ++ [c]) inStr true depth
    else if !inStr && c = '{' then
      braceWalkGo rest (acc ++ [c]) inStr false (depth + 1)
    else if !inStr && c = '}' then
      if depth - 1 = 0 && isValidJson (acc ++ [c]) then some (acc ++ [c])
      else braceWalkGo rest (acc ++ [c]) inStr false (depth - 1)
    else
      braceWalkGo rest (acc ++ [c]) inStr false depth

/-- Strategy 2 entry: start at the first `\x7b` of the text (`text.find`);
if there is none the strategy is skipped. -/
def braceWalk (t : List Char) : Option (List Char) :=
  braceWalkGo (t.dropWhile (fun c => !(c = '{'))) [] false false 0

/-- Python `JiraEnricher._extract_json_from_text`, over `List Char`; the empty list
models the returned empty string. -/
def extractJsonFromText (t : List Char) : List Char :=
  match ((fencedMatches t).map stripChars).find? isValidJson with
  | some s => s
  | none =>
    match braceWalk t with
    | some s => s
    | none =>
      if (stripChars t).head? = some '{' && (stripChars t).getLast? = some '}'
          && isValidJson (stripChars t) then
        stripChars t
      else []

/-! ## Issues and analysis results

A Jira issue is a Python dict: an insertion-ordered association from field
names to values.  Field values are modelled by the small universe the
pipeline manipulates (strings, booleans, string lists, numbers). -/

inductive FieldVal where
  | str (s : String)
  | bool (b : Bool)
  | list (l : List String)
  | num (n : Int)
deriving DecidableEq

abbrev Issue : Type := List (String × FieldVal)

/-- Python `issue.get(k)` (with `None` for a missing key). -/
def getField (i : Issue) (k : String) : Option FieldVal :=
  (i.find? (fun kv => kv.1 = k)).map (fun kv => kv.2)

/-- Python `issue[k] = v`: replace the value of an existing key in place (dicts
preserve insertion order) or append a new binding. -/
def setField (i : Issue) (k : String) (v : FieldVal) : Issue :=
  if i.any (fun kv => kv.1 = k) then
    i.map (fun kv => if kv.1 = k then (k, v) else kv)
  else i ++ [(k, v)]

/-- Python `issue.get(k, '')` for a string-valued field.  (The pipeline only reads
these fields after a pydantic model wrote string values into them, so a
non-string value cannot occur; a missing key yields the default `''`.) -/
def getStr (i : Issue) (k : String) : String :=
  match getField i k with
  | some (.str s) => s
  | _ => ""

/-- Python `issue.get(k, [])` for a list-valued field. -/
def getList (i : Issue) (k : String) : List String :=
  match getField i k with
  | some (.list l) => l
  | _ => []

/-- A validated analysis result: the `model_fields` of the pydantic object
in declaration order, paired with the values `getattr` reads back.  Pydantic
model fields are distinct by construction. -/
abbrev Analysis : Type := List (String × FieldVal)

/-- The merge loop of `add_ai_analysis_to_issue` (lines 325-326):
`for field in result.model_fields: issue[field] = getattr(result, field)`. -/
def mergeFields (issue : Issue) (a : Analysis) : Issue :=
  a.foldl (fun acc kv => setField acc kv.1 kv.2) issue

/-! ## `analyze_issue_with_ai` (lines 119-302): the retry controller

Each attempt of the `while attempt < max_attempts` loop ends in exactly one
of the handler-level outcomes below; the invoker is abstracted as a function
from the 0-based attempt index to that outcome. -/

inductive AttemptOutcome where
  /-- Python `asyncio.TimeoutError` (lines 191-196): count the attempt, sleep
  `2 ** attempt` (after the increment), continue — even when the budget is
  now exhausted. -/
  | timeout
  /-- Python `unsupported_parameter` / `unsupported_value` error (lines 200-221):
  adjust parameters, count the attempt, continue with no sleep. -/
  | paramError
  /-- Python `HttpUnauthorizedError` from the call (lines 261-263): re-raised. -/
  | unauthorized
  /-- Generic exception classified as 401 (lines 270-273):
  `HttpUnauthorizedError` raised. -/
  | err401
  /-- Python `ValueError` (lines 265-267): empty result structure, no extractable
  JSON, JSON decode failure or pydantic validation failure; falls through to
  the backoff at lines 294-299. -/
  | valueErr
  /-- Generic exception whose `llm_output` normalizes into the schema
  (lines 287-290): returned as a degraded success. -/
  | fallbackSuccess (a : Analysis)
  /-- Generic exception without a usable `llm_output` (lines 269-292 minus
  the return): falls through to the backoff. -/
  | fallbackFail
  /-- The whole try body succeeded: extraction and `model_validate_json`
  produced the analysis (lines 246-252). -/
  | ok (a : Analysis)
deriving DecidableEq

/-- The observable outcome of `analyze_issue_with_ai`: the returned analysis
or `None`, with the `asyncio.sleep` backoff delays in order and the number
of attempts made. -/
inductive RunResult where
  /-- Python `return analysis` (line 252) or the degraded return (line 290). -/
  | success (a : Analysis) (delays : List Nat) (attempts : Nat)
  /-- Python `return None` after the loop (lines 301-302). -/
  | exhausted (delays : List Nat) (attempts : Nat)
  /-- Python `HttpUnauthorizedError` propagates out of the function. -/
  | fatal (delays : List Nat) (attempts : Nat)
deriving DecidableEq

/-- The retry loop.  `fuel` drives the recursion; since every iteration
increments `attempt` by exactly one, calling with `fuel = maxA - attempt`
makes the `fuel = 0` case coincide with the failure of the loop guard
`attempt < max_attempts`, so both produce the post-loop `return None`. -/
def retryGo (inv : Nat → AttemptOutcome) (maxA : Nat) :
    Nat → Nat → List Nat → RunResult
  | 0, attempt, delays => .exhausted delays attempt
  | fuel + 1, attempt, delays =>
    if attempt < maxA then
      match inv attempt with
      | .timeout => retryGo inv maxA fuel (attempt + 1) (delays ++ [2 ^ (attempt + 1)])
      | .paramError => retryGo inv maxA fuel (attempt + 1) delays
      | .unauthorized => .fatal delays (attempt + 1)
      | .err401 => .fatal delays (attempt + 1)
      | .fallbackSuccess a => .success a delays (attempt + 1)
      | .ok a => .success a delays (attempt + 1)
      | .valueErr =>
        if attempt + 1 < maxA then
          retryGo inv maxA fuel (attempt + 1) (delays ++ [2 ^ (attempt + 1)])
        else retryGo inv maxA fuel (attempt + 1) delays
      | .fallbackFail =>
        if attempt + 1 < maxA then
          retryGo inv maxA fuel (attempt + 1) (delays ++ [2 ^ (attempt + 1)])
        else retryGo inv maxA fuel (attempt + 1) delays
    else .exhausted delays attempt

/-- Python `analyze_issue_with_ai`: `max_attempts = 3`, `attempt = 0`, no delays
yet. -/
def analyzeIssueWithAI (inv : Nat → AttemptOutcome) : RunResult :=
  retryGo inv 3 3 0 []

def RunResult.delaysOf : RunResult → List Nat
  | .success _ d _ => d
  | .exhausted d _ => d
  | .fatal d _ => d

def RunResult.attemptsOf : RunResult → Nat
  | .success _ _ n => n
  | .exhausted _ n => n
  | .fatal _ n => n

/-! ## `add_ai_analysis_to_issue` (lines 304-336): the issue enricher -/

/-- Python `str.lower()` (the issue types of interest are ASCII). -/
def lowerAscii (s : String) : String :=
  String.mk (s.toList.map Char.toLower)

/-- Python `re.match(r"IP-\d+", s)`: the string starts with `IP-` followed by at
least one digit (`re.match` anchors at the start only). -/
def matchesIP (s : String) : Bool :=
  match s.toList with
  | 'I' :: 'P' :: '-' :: c :: _ => isDigitCh c
  | _ => false

/-- The allow-listed snippet keys (lines 311-313): epics additionally send
children and parent context. -/
def snippetKeys (issue : Issue) : List String :=
  let base := ["key", "summary", "description", "priority", "components",
    "comments", "imgURLs"]
  if lowerAscii (getStr issue "issuetype") = "epic" then base ++ ["children", "parent"]
  else base

/-- Python `{k: issue.get(k) for k in keys}` (line 314). -/
def buildSnippet (issue : Issue) : List (String × Option FieldVal) :=
  (snippetKeys issue).map (fun k => (k, getField issue k))

/-- The post-merge ticket-number normalization (lines 328-330). -/
def cleanTicket (i : Issue) : Issue :=
  if matchesIP (getStr i "ticket_number") then setField i "ticket_number" (.str "")
  else i

/-- The observable outcome of `add_ai_analysis_to_issue`. -/
inductive EnrichOut where
  /-- Python `HttpUnauthorizedError` from `analyze_issue_with_ai` propagates out. -/
  | raisedUnauthorized
  /-- Python `KeyError` from `issue['key']` at line 332 (the merged issue lacks the
  key field). -/
  | raisedKeyError
  /-- A boolean return; `issue'` is the mutated issue and `loggedError`
  records whether the error-level log of line 319 fired. -/
  | done (b : Bool) (issue' : Issue) (loggedError : Bool)
deriving DecidableEq

/-- Rendering of a field value inside the `browsable_url` f-string. -/
def valToStr : FieldVal → String
  | .str s => s
  | .bool b => if b then "True" else "False"
  | .list l => String.intercalate ", " l
  | .num n => toString n

/-- Python `add_ai_analysis_to_issue`: calls the retry controller on the snippet,
and on a non-`None` result merges every analysis field into the issue,
normalizes the ticket number, records the browsable URL and marks the issue
enriched. -/
def addAiAnalysisToIssue (jiraUrl : String) (inv : Nat → AttemptOutcome)
    (issue : Issue) : EnrichOut :=
  match analyzeIssueWithAI inv with
  | .fatal _ _ => .raisedUnauthorized
  | .exhausted _ _ => .done false (setField issue "ai_enriched" (.bool false)) true
  | .success a _ _ =>
    let merged := mergeFields issue a
    let cleaned := cleanTicket merged
    match getField cleaned "key" with
    | none => .raisedKeyError
    | some v =>
      let withUrl := setField cleaned "browsable_url"
        (.str (jiraUrl ++ "/browse/" ++ valToStr v))
      .done true (setField withUrl "ai_enriched" (.bool true)) false

/-! ## `_has_meaningful_content` (lines 338-376) -/

/-- Python `_has_meaningful_content`.  Python truthiness of
`bool(a.strip() and (b.strip() or c.strip()))` is rendered with emptiness
tests of the stripped strings. -/
def hasMeaningfulContent (issue : Issue) : Bool :=
  let issueType := lowerAscii (getStr issue "issuetype")
  if issueType = "bug" then
    let tech := stripChars (getStr issue "technical_summary").toList
    let cause := stripChars (getStr issue "cause").toList
    let fix := stripChars (getStr issue "fix").toList
    !tech.isEmpty && (!cause.isEmpty || !fix.isEmpty)
  else if issueType = "epic" then
    let tech := stripChars (getStr issue "technical_summary").toList
    let execSum := stripChars (getStr issue "executive_summary").toList
    !tech.isEmpty || !execSum.isEmpty
  else
    let reasoning := stripChars (getStr issue "reasoning").toList
    let categories := getList issue "inferredCategories"
    !reasoning.isEmpty && !categories.isEmpty

/-! ## `fetch_and_analyze_issues` (lines 378-746): the batch coordinator

Fetching and configuration handling are external collaborators; the model
takes the parsed issue list as input together with a per-issue invoker
`invs : Nat → Nat → AttemptOutcome` (issue index → attempt → outcome).  The
Confluence branch (lines 497-736) and the DEBUG-only raw dump (lines
439-443) are outside every claim and are not modelled; persistence is the
local-file phase of lines 455-495. -/

structure BatchConfig where
  /-- Python `create_local_files` (default `True`). -/
  createLocalFiles : Bool
  /-- Python `file_types_to_save` (default `['json']`). -/
  fileTypes : List String
deriving DecidableEq

/-- How many `save_issues_to_file` calls the local-file phase makes
(lines 485-495): one per recognized file type, when enabled. -/
def localSaveCalls (cfg : BatchConfig) : Nat :=
  if cfg.createLocalFiles then
    (if "xlsx" ∈ cfg.fileTypes then 1 else 0) +
    (if "json" ∈ cfg.fileTypes then 1 else 0) +
    (if "md" ∈ cfg.fileTypes then 1 else 0)
  else 0

/-- Python `asyncio.gather` over `add_ai_analysis_to_issue` (line 446): all
enrichments complete and their booleans are collected in order; if any
coroutine raises, the exception propagates (`none`). -/
def gatherEnrich (jiraUrl : String) (invs : Nat → Nat → AttemptOutcome) :
    List (Nat × Issue) → Option (List (Bool × Issue))
  | [] => some []
  | (i, iss) :: rest =>
    match addAiAnalysisToIssue jiraUrl (invs i) iss with
    | .done b iss' _ =>
      match gatherEnrich jiraUrl invs rest with
      | some pairs => some ((b, iss') :: pairs)
      | none => none
    | _ => none

/-- The observable outcome of `fetch_and_analyze_issues` given the parsed
issue list. -/
structure BatchResult where
  /-- Python `successful_enrichments` (line 449). -/
  successCount : Nat
  /-- Python `len(parsed)` (line 450). -/
  totalCount : Nat
  /-- The issue list after enrichment (the list the save calls receive). -/
  issues : List Issue
  /-- The issue list handed to `save_issues_to_file`, when the local-file
  phase saves at all. -/
  savedIssues : Option (List Issue)
  /-- Number of `save_issues_to_file` calls. -/
  saveCalls : Nat
deriving DecidableEq

inductive BatchOut where
  /-- The bare `return` of line 427: no issues found, no persistence, no
  status dictionary. -/
  | emptyReturn
  /-- An enrichment raised; `asyncio.gather` propagates it before any
  persistence. -/
  | raised
  /-- The normal completion with its status information. -/
  | completed (r : BatchResult)
deriving DecidableEq

/-- Python `fetch_and_analyze_issues` from the emptiness check (line 424) on:
early return on an empty issue set, otherwise enrich every issue, count the
successes, and only then run the persistence phase once. -/
def fetchAndAnalyzeIssues (jiraUrl : String) (cfg : BatchConfig)
    (invs : Nat → Nat → AttemptOutcome) (parsed : List Issue) : BatchOut :=
  if parsed.isEmpty then .emptyReturn
  else
    match gatherEnrich jiraUrl invs parsed.enum with
    | none => .raised
    | some pairs =>
      let finalIssues := pairs.map (fun p => p.2)
      let succ := (pairs.map (fun p => p.1)).count true
      .completed
        { successCount := succ
          totalCount := parsed.length
          issues := finalIssues
          savedIssues := if localSaveCalls cfg > 0 then some finalIssues else none
          saveCalls := localSaveCalls cfg }

/-! ## Supporting lemmas: contiguous segments and the extractor -/

/-- Python `s` occurs as a contiguous segment (Python slice) of `t`. -/
def SubSeg (s t : List Char) : Prop :=
  ∃ u v, t = u ++ s ++ v

theorem SubSeg.refl (t : List Char) : SubSeg t t :=
  ⟨[], [], by simp⟩

theorem SubSeg.trans {s t u : List Char} (h1 : SubSeg s t) (h2 : SubSeg t u) :
    SubSeg s u := by
  obtain ⟨a, b, rfl⟩ := h1
  obtain ⟨c, d, rfl⟩ := h2
  exact ⟨c ++ a, b ++ d, by simp⟩

theorem dropWhile_subSeg (p : Char → Bool) (t : List Char) :
    SubSeg (t.dropWhile p) t :=
  ⟨t.takeWhile p, [], by simp [List.takeWhile_append_dropWhile]⟩

theorem stripChars_subSeg (t : List Char) : SubSeg (stripChars t) t := by
  have h1 : t.takeWhile pyWs ++ t.dropWhile pyWs = t :=
    List.takeWhile_append_dropWhile pyWs t
  have h2 : (t.dropWhile pyWs).reverse.takeWhile pyWs ++
      (t.dropWhile pyWs).reverse.dropWhile pyWs = (t.dropWhile pyWs).reverse :=
    List.takeWhile_append_dropWhile pyWs (t.dropWhile pyWs).reverse
  refine ⟨t.takeWhile pyWs, ((t.dropWhile pyWs).reverse.takeWhile pyWs).reverse, ?_⟩
  have h3 : t.dropWhile pyWs =
      stripChars t ++ ((t.dropWhile pyWs).reverse.takeWhile pyWs).reverse := by
    conv_lhs => rw [← List.reverse_reverse (t.dropWhile pyWs), ← h2]
    rw [List.reverse_append]
    rfl
  calc t = t.takeWhile pyWs ++ t.dropWhile pyWs := h1.symm
    _ = t.takeWhile pyWs ++ (stripChars t ++
        ((t.dropWhile pyWs).reverse.takeWhile pyWs).reverse) := by rw [← h3]
    _ = _ := by simp

theorem findFence_eq :
    ∀ t pre post, findFence t = some (pre, post) →
      t = pre ++ [btick, btick, btick] ++ post := by
  intro t
  induction t with
  | nil => intro pre post h; simp [findFence] at h
  | cons c rest ih =>
    intro pre post h
    rw [findFence] at h
    by_cases h3 : (c :: rest).take 3 = [btick, btick, btick]
    · rw [if_pos h3] at h
      obtain ⟨rfl, rfl⟩ : pre = [] ∧ post = rest.drop 2 := by
        simpa using h.symm
      rw [List.take_succ_cons] at h3
      obtain ⟨rfl, h32⟩ : c = btick ∧ rest.take 2 = [btick, btick] := by
        simpa using h3
      conv_lhs => rw [← List.take_append_drop 2 rest, h32]
      simp
    · rw [if_neg h3] at h
      match hf : findFence rest with
      | some (pre2, post2) =>
        rw [hf] at h
        obtain ⟨rfl, rfl⟩ : c :: pre2 = pre ∧ post2 = post := by simpa using h
        have := ih pre2 post2 hf
        simp [← this]
      | none => rw [hf] at h; simp at h

theorem take_append_drop_subSeg (n : Nat) (t : List Char) : SubSeg (t.drop n) t :=
  ⟨t.take n, [], by simp⟩

theorem fencedGo_subSeg :
    ∀ fuel t m, m ∈ fencedGo fuel t → SubSeg m t := by
  intro fuel
  induction fuel with
  | zero => intro t m h; simp [fencedGo] at h
  | succ fuel ih =>
    intro t m h
    rw [fencedGo] at h
    split at h
    · simp at h
    · rename_i pre afterOpen h1
      have ht := findFence_eq t pre afterOpen h1
      have hTagSeg : SubSeg (if afterOpen.take 4 = ['j', 's', 'o', 'n'] then afterOpen.drop 4
          else afterOpen) afterOpen := by
        split
        · exact take_append_drop_subSeg 4 afterOpen
        · exact SubSeg.refl afterOpen
      have hWsSeg : SubSeg ((if afterOpen.take 4 = ['j', 's', 'o', 'n'] then afterOpen.drop 4
          else afterOpen).dropWhile pyWs)
          (if afterOpen.take 4 = ['j', 's', 'o', 'n'] then afterOpen.drop 4 else afterOpen) :=
        dropWhile_subSeg pyWs _
      split at h
      · simp at h
      rename_i capture rest h2
      have hws := findFence_eq _ capture rest h2
      have hOpenSeg : SubSeg afterOpen t := ⟨pre ++ [btick, btick, btick], [], by
        rw [ht]; simp⟩
      have hCapSeg : SubSeg capture ((if afterOpen.take 4 = ['j', 's', 'o', 'n'] then
          afterOpen.drop 4 else afterOpen).dropWhile pyWs) :=
        ⟨[], [btick, btick, btick] ++ rest, by rw [hws]; simp⟩
      have hRestSeg : SubSeg rest ((if afterOpen.take 4 = ['j', 's', 'o', 'n'] then
          afterOpen.drop 4 else afterOpen).dropWhile pyWs) :=
        ⟨capture ++ [btick, btick, btick], [], by rw [hws]; simp⟩
      have hChain : SubSeg ((if afterOpen.take 4 = ['j', 's', 'o', 'n'] then afterOpen.drop 4
          else afterOpen).dropWhile pyWs) t :=
        (hWsSeg.trans hTagSeg).trans hOpenSeg
      rcases List.mem_cons.mp h with rfl | hmem
      · exact hCapSeg.trans hChain
      · exact ((ih rest m hmem).trans hRestSeg).trans hChain

theorem braceWalkGo_sound :
    ∀ rest acc inStr esc depth s, braceWalkGo rest acc inStr esc depth = some s →
      isValidJson s = true ∧ ∃ mid post, rest = mid ++ post ∧ s = acc ++ mid ∧ mid ≠ [] := by
  intro rest
  induction rest with
  | nil => intro acc inStr esc depth s h; simp [braceWalkGo] at h
  | cons c rr ih =>
    intro acc inStr esc depth s h
    rw [braceWalkGo] at h
    split_ifs at h with h1 h2 h3 h4 h5
    · obtain ⟨hv, mid, post, hrr, hs, hne⟩ := ih _ _ _ _ _ h
      exact ⟨hv, c :: mid, post, by rw [List.cons_append, ← hrr], by rw [hs]; simp,
        List.cons_ne_nil c mid⟩
    · obtain ⟨hv, mid, post, hrr, hs, hne⟩ := ih _ _ _ _ _ h
      exact ⟨hv, c :: mid, post, by rw [List.cons_append, ← hrr], by rw [hs]; simp,
        List.cons_ne_nil c mid⟩
    · obtain ⟨hv, mid, post, hrr, hs, hne⟩ := ih _ _ _ _ _ h
      exact ⟨hv, c :: mid, post, by rw [List.cons_append, ← hrr], by rw [hs]; simp,
        List.cons_ne_nil c mid⟩
    · obtain ⟨rfl⟩ : acc ++ [c] = s := by simpa using h
      have hv : isValidJson (acc ++ [c]) = true := by
        simp only [Bool.and_eq_true] at h5
        exact h5.2
      exact ⟨hv, [c], rr, rfl, rfl, List.cons_ne_nil c []⟩
    · obtain ⟨hv, mid, post, hrr, hs, hne⟩ := ih _ _ _ _ _ h
      exact ⟨hv, c :: mid, post, by rw [List.cons_append, ← hrr], by rw [hs]; simp,
        List.cons_ne_nil c mid⟩
    · obtain ⟨hv, mid, post, hrr, hs, hne⟩ := ih _ _ _ _ _ h
      exact ⟨hv, c :: mid, post, by rw [List.cons_append, ← hrr], by rw [hs]; simp,
        List.cons_ne_nil c mid⟩

theorem head?_dropWhile_false (p : Char → Bool) :
    ∀ (l : List Char) (c : Char), (l.dropWhile p).head? = some c → p c = false := by
  intro l
  induction l with
  | nil => intro c h; simp [List.dropWhile] at h
  | cons a as ih =>
    intro c h
    by_cases hp : p a
    · rw [List.dropWhile_cons_of_pos hp] at h
      exact ih c h
    · rw [List.dropWhile_cons_of_neg hp] at h
      obtain rfl : a = c := by simpa using h
      simpa using hp

theorem braceWalk_sound :
    ∀ t s, braceWalk t = some s →
      isValidJson s = true ∧ s.head? = some '{' ∧
      ∃ pre post, t = pre ++ s ++ post ∧ ∀ c ∈ pre, ¬(c = '{') := by
  intro t s h
  rw [braceWalk] at h
  obtain ⟨hv, mid, post, hd, hs, hne⟩ := braceWalkGo_sound _ _ _ _ _ _ h
  rw [List.nil_append] at hs
  subst hs
  refine ⟨hv, ?_, t.takeWhile (fun c => !(c = '{')), post, ?_, ?_⟩
  · cases s with
    | nil => exact absurd rfl hne
    | cons m0 mrest =>
      have hh : (t.dropWhile (fun c => !(c = '{'))).head? = some m0 := by
        rw [hd]; rfl
      have := head?_dropWhile_false (fun c => !(c = '{')) t m0 hh
      simp only [Bool.not_eq_false', decide_eq_true_eq] at this
      simpa using this
  · conv_lhs => rw [← List.takeWhile_append_dropWhile (fun c => !(c = '{')) t, hd]
    simp
  · intro c hc
    have := List.mem_takeWhile_imp hc
    simpa using this

theorem extract_subSeg_valid (t : List Char) :
    extractJsonFromText t = [] ∨
    (isValidJson (extractJsonFromText t) = true ∧ SubSeg (extractJsonFromText t) t) := by
  rw [extractJsonFromText]
  split
  · rename_i s h1
    right
    refine ⟨List.find?_some h1, ?_⟩
    have hmem := List.mem_of_find?_eq_some h1
    obtain ⟨m, hm, rfl⟩ := List.mem_map.mp hmem
    exact (stripChars_subSeg m).trans (fencedGo_subSeg t.length t m hm)
  · split
    · rename_i h1 s h2
      right
      obtain ⟨hv, _, pre, post, ht, _⟩ := braceWalk_sound t s h2
      exact ⟨hv, pre, post, ht⟩
    · split_ifs with h3
      · right
        simp only [Bool.and_eq_true, decide_eq_true_eq] at h3
        exact ⟨h3.2, stripChars_subSeg t⟩
      · left; rfl

/-- Decidable reformulation of "no contiguous segment of `t` is valid
JSON": every prefix of every suffix fails the checker. -/
def noValidJsonSeg (t : List Char) : Bool :=
  t.tails.all (fun suf => suf.inits.all (fun s => !isValidJson s))

theorem noValidJsonSeg_spec (t : List Char) (h : noValidJsonSeg t = true) :
    ∀ s, SubSeg s t → isValidJson s = false := by
  intro s hseg
  obtain ⟨u, v, rfl⟩ := hseg
  have hsuf : (s ++ v) ∈ (u ++ s ++ v).tails := by
    rw [List.mem_tails]
    exact ⟨u, by simp⟩
  have hall := List.all_eq_true.mp h (s ++ v) hsuf
  have hpre : s ∈ (s ++ v).inits := by
    rw [List.mem_inits]
    exact ⟨v, rfl⟩
  have := List.all_eq_true.mp hall s hpre
  simpa using this

/-! ## Claim C3 -/

/-- C3: for every raw text input that contains no valid JSON contiguous
segment, `_extract_json_from_text` returns the empty (none) result; being a
total function of the embedding, it never raises — every failure of the
fenced-block, brace-walk and whole-text strategies funnels to the empty
result. -/
theorem c3_no_json_returns_none (t : List Char)
    (h : ∀ s, SubSeg s t → isValidJson s = false) :
    extractJsonFromText t = [] := by
  rcases extract_subSeg_valid t with he | ⟨hv, hseg⟩
  · exact he
  · rw [h _ hseg] at hv
    cases hv

/-- Witness for C3 at the concrete input `"hello"`: no segment of it is
valid JSON, and the extractor returns the empty result. -/
theorem c3_no_json_returns_none_witness :
    extractJsonFromText ['h', 'e', 'l', 'l', 'o'] = [] :=
  c3_no_json_returns_none ['h', 'e', 'l', 'l', 'o']
    (noValidJsonSeg_spec ['h', 'e', 'l', 'l', 'o'] (by decide))

/-! ## Claim C4 -/

/-- C4 counterexample input: `\x7boops\x7d \x7b"a":1\x7d` — the first brace
opens an invalid fragment, and a valid JSON object follows later. -/
def c4Input : List Char :=
  ['{', 'o', 'o', 'p', 's', '}', ' ', '{', '"', 'a', '"', ':', '1', '}']

/-- The later valid JSON object contained in `c4Input`. -/
def c4Later : List Char := ['{', '"', 'a', '"', ':', '1', '}']

/-- C4 is false as stated: `c4Input` has no fenced block, its first brace
starts an invalid fragment, and it contains the later valid JSON object
`c4Later` as a contiguous segment — yet the extractor returns the empty
result instead of that object, because the brace walk keeps its original
start index and only ever parses spans anchored at the first brace. -/
theorem c4_counterexample :
    isValidJson ['{', 'o', 'o', 'p', 's', '}'] = false ∧
    isValidJson c4Later = true ∧
    SubSeg c4Later c4Input ∧
    extractJsonFromText c4Input = [] ∧
    extractJsonFromText c4Input ≠ c4Later := by
  refine ⟨by decide, by decide, ⟨['{', 'o', 'o', 'p', 's', '}', ' '], [], by decide⟩,
    by decide, by decide⟩

/-- C4 (amended): when no fenced block parses, the extractor's brace-depth
walk starts at the first `\x7b`, skips characters inside double-quoted
strings honoring backslash escapes, and at every return of the depth to zero
attempts to parse the span from the first `\x7b` (the start index is never
advanced) to the current closing brace; hence anything the walk returns is
valid JSON, begins at the first `\x7b` of the text (no `\x7b` precedes it),
and a later valid JSON object is returned only as part of such a span —
not on its own. -/
theorem c4_brace_walk_anchored (t s : List Char) (h : braceWalk t = some s) :
    isValidJson s = true ∧ s.head? = some '{' ∧
    ∃ pre post, t = pre ++ s ++ post ∧ ∀ c ∈ pre, ¬(c = '{') :=
  braceWalk_sound t s h

/-- Witness for C4 (amended) at the concrete input `xx\x7b"a":1\x7dyy`. -/
theorem c4_brace_walk_anchored_witness :
    isValidJson ['{', '"', 'a', '"', ':', '1', '}'] = true ∧
    List.head? ['{', '"', 'a', '"', ':', '1', '}'] = some '{' ∧
    ∃ pre post, ['x', 'x', '{', '"', 'a', '"', ':', '1', '}', 'y', 'y'] =
      pre ++ ['{', '"', 'a', '"', ':', '1', '}'] ++ post ∧ ∀ c ∈ pre, ¬(c = '{') :=
  c4_brace_walk_anchored ['x', 'x', '{', '"', 'a', '"', ':', '1', '}', 'y', 'y']
    ['{', '"', 'a', '"', ':', '1', '}'] (by decide)

/-! ## Supporting lemmas: the retry loop -/

theorem retryGo_delays (inv : Nat → AttemptOutcome) (maxA : Nat) :
    ∀ fuel attempt delays,
      ∃ extra, (retryGo inv maxA fuel attempt delays).delaysOf = delays ++ extra ∧
        extra.Sublist ((List.range' (attempt + 1) fuel).map (fun k => 2 ^ k)) := by
  intro fuel
  induction fuel with
  | zero =>
    intro attempt delays
    exact ⟨[], by simp [retryGo, RunResult.delaysOf], by simp⟩
  | succ fuel ih =>
    intro attempt delays
    rw [retryGo]
    by_cases hlt : attempt < maxA
    · rw [if_pos hlt]
      have hrange : List.range' (attempt + 1) (fuel + 1) =
          (attempt + 1) :: List.range' (attempt + 2) fuel := List.range'_succ _ _ _
      cases hinv : inv attempt with
      | timeout =>
        obtain ⟨extra, he, hs⟩ := ih (attempt + 1) (delays ++ [2 ^ (attempt + 1)])
        refine ⟨2 ^ (attempt + 1) :: extra, by rw [he]; simp, ?_⟩
        rw [hrange, List.map_cons]
        exact List.Sublist.cons₂ _ hs
      | paramError =>
        obtain ⟨extra, he, hs⟩ := ih (attempt + 1) delays
        refine ⟨extra, he, ?_⟩
        rw [hrange, List.map_cons]
        exact List.Sublist.cons _ hs
      | unauthorized => exact ⟨[], by simp [RunResult.delaysOf], by simp⟩
      | err401 => exact ⟨[], by simp [RunResult.delaysOf], by simp⟩
      | fallbackSuccess a => exact ⟨[], by simp [RunResult.delaysOf], by simp⟩
      | ok a => exact ⟨[], by simp [RunResult.delaysOf], by simp⟩
      | valueErr =>
        by_cases hlt2 : attempt + 1 < maxA
        · rw [if_pos hlt2]
          obtain ⟨extra, he, hs⟩ := ih (attempt + 1) (delays ++ [2 ^ (attempt + 1)])
          refine ⟨2 ^ (attempt + 1) :: extra, by rw [he]; simp, ?_⟩
          rw [hrange, List.map_cons]
          exact List.Sublist.cons₂ _ hs
        · rw [if_neg hlt2]
          obtain ⟨extra, he, hs⟩ := ih (attempt + 1) delays
          refine ⟨extra, he, ?_⟩
          rw [hrange, List.map_cons]
          exact List.Sublist.cons _ hs
      | fallbackFail =>
        by_cases hlt2 : attempt + 1 < maxA
        · rw [if_pos hlt2]
          obtain ⟨extra, he, hs⟩ := ih (attempt + 1) (delays ++ [2 ^ (attempt + 1)])
          refine ⟨2 ^ (attempt + 1) :: extra, by rw [he]; simp, ?_⟩
          rw [hrange, List.map_cons]
          exact List.Sublist.cons₂ _ hs
        · rw [if_neg hlt2]
          obtain ⟨extra, he, hs⟩ := ih (attempt + 1) delays
          refine ⟨extra, he, ?_⟩
          rw [hrange, List.map_cons]
          exact List.Sublist.cons _ hs
    · rw [if_neg hlt]
      exact ⟨[], by simp [RunResult.delaysOf], by simp⟩

theorem retryGo_attempts (inv : Nat → AttemptOutcome) (maxA : Nat) :
    ∀ fuel attempt delays, attempt + fuel ≤ maxA →
      (retryGo inv maxA fuel attempt delays).attemptsOf ≤ maxA := by
  intro fuel
  induction fuel with
  | zero =>
    intro attempt delays hle
    simp only [retryGo, RunResult.attemptsOf]
    omega
  | succ fuel ih =>
    intro attempt delays hle
    rw [retryGo]
    by_cases hlt : attempt < maxA
    · rw [if_pos hlt]
      cases inv attempt with
      | timeout => exact ih _ _ (by omega)
      | paramError => exact ih _ _ (by omega)
      | unauthorized => simpa [RunResult.attemptsOf] using hlt
      | err401 => simpa [RunResult.attemptsOf] using hlt
      | fallbackSuccess a => simpa [RunResult.attemptsOf] using hlt
      | ok a => simpa [RunResult.attemptsOf] using hlt
      | valueErr =>
        by_cases hlt2 : attempt + 1 < maxA
        · rw [if_pos hlt2]; exact ih _ _ (by omega)
        · rw [if_neg hlt2]; exact ih _ _ (by omega)
      | fallbackFail =>
        by_cases hlt2 : attempt + 1 < maxA
        · rw [if_pos hlt2]; exact ih _ _ (by omega)
        · rw [if_neg hlt2]; exact ih _ _ (by omega)
    · rw [if_neg hlt]
      simp only [RunResult.attemptsOf]
      omega

theorem retryGo_delay_count (inv : Nat → AttemptOutcome) (maxA : Nat) :
    ∀ fuel attempt delays, delays.length ≤ attempt →
      (retryGo inv maxA fuel attempt delays).delaysOf.length ≤
        (retryGo inv maxA fuel attempt delays).attemptsOf := by
  intro fuel
  induction fuel with
  | zero =>
    intro attempt delays hle
    simpa [retryGo, RunResult.delaysOf, RunResult.attemptsOf] using hle
  | succ fuel ih =>
    intro attempt delays hle
    rw [retryGo]
    by_cases hlt : attempt < maxA
    · rw [if_pos hlt]
      cases inv attempt with
      | timeout => exact ih _ _ (by simp; omega)
      | paramError => exact ih _ _ (by omega)
      | unauthorized =>
        simp only [RunResult.delaysOf, RunResult.attemptsOf]
        omega
      | err401 =>
        simp only [RunResult.delaysOf, RunResult.attemptsOf]
        omega
      | fallbackSuccess a =>
        simp only [RunResult.delaysOf, RunResult.attemptsOf]
        omega
      | ok a =>
        simp only [RunResult.delaysOf, RunResult.attemptsOf]
        omega
      | valueErr =>
        by_cases hlt2 : attempt + 1 < maxA
        · rw [if_pos hlt2]; exact ih _ _ (by simp; omega)
        · rw [if_neg hlt2]; exact ih _ _ (by omega)
      | fallbackFail =>
        by_cases hlt2 : attempt + 1 < maxA
        · rw [if_pos hlt2]; exact ih _ _ (by simp; omega)
        · rw [if_neg hlt2]; exact ih _ _ (by omega)
    · rw [if_neg hlt]
      simpa [RunResult.delaysOf, RunResult.attemptsOf] using hle

theorem retryGo_eight_needs_final_timeout (inv : Nat → AttemptOutcome) :
    ∀ fuel attempt delays, (8 : Nat) ∉ delays → ¬(inv 2 = .timeout) →
      (8 : Nat) ∉ (retryGo inv 3 fuel attempt delays).delaysOf := by
  intro fuel
  induction fuel with
  | zero =>
    intro attempt delays h8 htm
    simpa [retryGo, RunResult.delaysOf] using h8
  | succ fuel ih =>
    intro attempt delays h8 htm
    rw [retryGo]
    by_cases hlt : attempt < 3
    · rw [if_pos hlt]
      cases hinv : inv attempt with
      | timeout =>
        refine ih _ _ ?_ htm
        interval_cases attempt
        · simpa using h8
        · simpa using h8
        · exact absurd hinv htm
      | paramError => exact ih _ _ h8 htm
      | unauthorized => simpa [RunResult.delaysOf] using h8
      | err401 => simpa [RunResult.delaysOf] using h8
      | fallbackSuccess a => simpa [RunResult.delaysOf] using h8
      | ok a => simpa [RunResult.delaysOf] using h8
      | valueErr =>
        by_cases hlt2 : attempt + 1 < 3
        · rw [if_pos hlt2]
          refine ih _ _ ?_ htm
          interval_cases attempt
          · simpa using h8
          · simpa using h8
          · omega
        · rw [if_neg hlt2]; exact ih _ _ h8 htm
      | fallbackFail =>
        by_cases hlt2 : attempt + 1 < 3
        · rw [if_pos hlt2]
          refine ih _ _ ?_ htm
          interval_cases attempt
          · simpa using h8
          · simpa using h8
          · omega
        · rw [if_neg hlt2]; exact ih _ _ h8 htm
    · rw [if_neg hlt]
      simpa [RunResult.delaysOf] using h8

theorem retryGo_fatal_unauth (inv : Nat → AttemptOutcome) (maxA : Nat) :
    ∀ fuel attempt delays d n, retryGo inv maxA fuel attempt delays = .fatal d n →
      ∃ k, inv k = .unauthorized ∨ inv k = .err401 := by
  intro fuel
  induction fuel with
  | zero => intro attempt delays d n h; simp [retryGo] at h
  | succ fuel ih =>
    intro attempt delays d n h
    rw [retryGo] at h
    by_cases hlt : attempt < maxA
    · rw [if_pos hlt] at h
      cases hinv : inv attempt with
      | timeout => rw [hinv] at h; exact ih _ _ _ _ h
      | paramError => rw [hinv] at h; exact ih _ _ _ _ h
      | unauthorized => exact ⟨attempt, Or.inl hinv⟩
      | err401 => exact ⟨attempt, Or.inr hinv⟩
      | fallbackSuccess a => rw [hinv] at h; cases h
      | ok a => rw [hinv] at h; cases h
      | valueErr =>
        rw [hinv] at h
        by_cases hlt2 : attempt + 1 < maxA
        · rw [if_pos hlt2] at h; exact ih _ _ _ _ h
        · rw [if_neg hlt2] at h; exact ih _ _ _ _ h
      | fallbackFail =>
        rw [hinv] at h
        by_cases hlt2 : attempt + 1 < maxA
        · rw [if_pos hlt2] at h; exact ih _ _ _ _ h
        · rw [if_neg hlt2] at h; exact ih _ _ _ _ h
    · rw [if_neg hlt] at h
      cases h

/-! ## Claim C1 -/

/-- An invoker that always times out. -/
def allTimeoutInv : Nat → AttemptOutcome := fun _ => .timeout

/-- An invoker that always reports a rejected request parameter. -/
def paramErrInv : Nat → AttemptOutcome := fun _ => .paramError

/-- The C1 scenario invoker: timeout on attempts 1 and 2, success with
analysis `a` on attempt 3. -/
def ttOkInv (a : Analysis) : Nat → AttemptOutcome :=
  fun k => if k = 0 then .timeout else if k = 1 then .timeout else .ok a

/-- C1 counterexample: backoff is not applied only between attempts.  With
an invoker that times out on all three attempts, the loop makes 3 attempts
but records 3 delays — 2s, 4s and then an 8s sleep after the final attempt,
with no further attempt following it; and with an invoker that always hits
the parameter-error handler, attempts 2 and 3 run with no backoff delay at
all instead of the claimed 2^n seconds. -/
theorem c1_counterexample :
    analyzeIssueWithAI allTimeoutInv = .exhausted [2, 4, 8] 3 ∧
    ¬((analyzeIssueWithAI allTimeoutInv).delaysOf.length ≤
      (analyzeIssueWithAI allTimeoutInv).attemptsOf - 1) ∧
    analyzeIssueWithAI paramErrInv = .exhausted [] 3 := by
  refine ⟨by decide, by decide, by decide⟩

/-- C1 (amended): the retry controller makes at most 3 attempts; no delay
precedes the first attempt and the recorded delays form, in order, a
subsequence of `[2, 4, 8]` (the delay recorded after the k-th attempt,
1-based, is `2^k` seconds), with at most one delay per attempt made; the
8-second delay can only be recorded after a timeout of the third and final
attempt (so a delay after the last attempt occurs exactly in the timeout
path), while parameter-error retries insert no delay at all; and for an
invoker that times out on attempts 1 and 2 and succeeds on attempt 3, the
result is the analysis with recorded delays exactly 2s then 4s and 3
attempts made. -/
theorem c1_retry_backoff :
    (∀ inv, (analyzeIssueWithAI inv).attemptsOf ≤ 3) ∧
    (∀ inv, (analyzeIssueWithAI inv).delaysOf.Sublist [2, 4, 8]) ∧
    (∀ inv, (analyzeIssueWithAI inv).delaysOf.length ≤ (analyzeIssueWithAI inv).attemptsOf) ∧
    (∀ inv, (8 : Nat) ∈ (analyzeIssueWithAI inv).delaysOf → inv 2 = .timeout) ∧
    (∀ a, analyzeIssueWithAI (ttOkInv a) = .success a [2, 4] 3) := by
  refine ⟨?_, ?_, ?_, ?_, ?_⟩
  · intro inv
    exact retryGo_attempts inv 3 3 0 [] (by omega)
  · intro inv
    obtain ⟨extra, he, hs⟩ := retryGo_delays inv 3 3 0 []
    rw [analyzeIssueWithAI, he, List.nil_append]
    simpa using hs
  · intro inv
    exact retryGo_delay_count inv 3 3 0 [] (by simp)
  · intro inv h8
    by_contra htm
    exact retryGo_eight_needs_final_timeout inv 3 0 [] (by simp) htm h8
  · intro a
    rfl

/-- Witness for C1 (amended): the 8s delay of the all-timeout run indeed
pins the final attempt's outcome to a timeout. -/
theorem c1_retry_backoff_witness :
    allTimeoutInv 2 = AttemptOutcome.timeout :=
  c1_retry_backoff.2.2.2.1 allTimeoutInv (by decide)

/-! ## Claim C2 -/

/-- An invoker that always fails unauthorized. -/
def unauthInv : Nat → AttemptOutcome := fun _ => .unauthorized

/-- C2: when the model call raises an unauthorized (401) failure on the
first attempt — either as an `HttpUnauthorizedError` or as a generic
exception classified as 401 — exactly one attempt is made, no backoff is
performed, and the failure propagates to the caller as the fatal
`HttpUnauthorizedError`; attempt 2 is never reached. -/
theorem c2_unauthorized_fatal (inv : Nat → AttemptOutcome)
    (h : inv 0 = .unauthorized ∨ inv 0 = .err401) :
    analyzeIssueWithAI inv = .fatal [] 1 := by
  rcases h with h | h <;>
    simp [analyzeIssueWithAI, retryGo, h]

/-- Witness for C2 with the always-unauthorized invoker stub. -/
theorem c2_unauthorized_fatal_witness :
    analyzeIssueWithAI unauthInv = .fatal [] 1 :=
  c2_unauthorized_fatal unauthInv (Or.inl rfl)

/-! ## Supporting lemmas: dict update and merge -/

theorem getField_mapset_self (k : String) (v : FieldVal) :
    ∀ i : Issue, (∃ kv ∈ i, kv.1 = k) →
      getField (i.map (fun kv => if kv.1 = k then (k, v) else kv)) k = some v := by
  intro i
  induction i with
  | nil => intro h; simp at h
  | cons a as ih =>
    intro h
    by_cases ha : a.1 = k
    · simp [getField, List.find?_cons, ha]
    · have h2 : ∃ kv ∈ as, kv.1 = k := by
        rcases h with ⟨kv, hmem, hk⟩
        rcases List.mem_cons.mp hmem with rfl | hmem2
        · exact absurd hk ha
        · exact ⟨kv, hmem2, hk⟩
      have := ih h2
      simpa [getField, List.find?_cons, ha] using this

theorem getField_mapset_ne (k k2 : String) (v : FieldVal) (hne : ¬(k2 = k)) :
    ∀ i : Issue,
      getField (i.map (fun kv => if kv.1 = k then (k, v) else kv)) k2 = getField i k2 := by
  intro i
  induction i with
  | nil => simp [getField]
  | cons a as ih =>
    by_cases ha : a.1 = k
    · have hk2 : ¬(k = k2) := fun h => hne h.symm
      simpa [getField, List.find?_cons, ha, hk2] using ih
    · by_cases ha2 : a.1 = k2
      · simp [getField, List.find?_cons, ha, ha2, hne]
      · simpa [getField, List.find?_cons, ha, ha2] using ih

theorem getField_append_single_self (k : String) (v : FieldVal) :
    ∀ i : Issue, getField i k = none → getField (i ++ [(k, v)]) k = some v := by
  intro i
  induction i with
  | nil => intro _; simp [getField, List.find?_cons]
  | cons a as ih =>
    intro h
    by_cases ha : a.1 = k
    · simp [getField, List.find?_cons, ha] at h
    · have h2 : getField as k = none := by
        simpa [getField, List.find?_cons, ha] using h
      simpa [getField, List.find?_cons, ha] using ih h2

theorem getField_append_single_ne (k k2 : String) (v : FieldVal) (hne : ¬(k2 = k)) :
    ∀ i : Issue, getField (i ++ [(k, v)]) k2 = getField i k2 := by
  intro i
  induction i with
  | nil =>
    have : ¬(k = k2) := fun h => hne h.symm
    simp [getField, List.find?_cons, this]
  | cons a as ih =>
    by_cases ha : a.1 = k2
    · simp [getField, List.find?_cons, ha]
    · simpa [getField, List.find?_cons, ha] using ih

theorem getField_setField_self (i : Issue) (k : String) (v : FieldVal) :
    getField (setField i k v) k = some v := by
  rw [setField]
  split_ifs with h
  · obtain ⟨kv, hmem, hk⟩ := List.any_eq_true.mp h
    exact getField_mapset_self k v i ⟨kv, hmem, by simpa using hk⟩
  · refine getField_append_single_self k v i ?_
    have hnone : i.find? (fun kv => kv.1 = k) = none := by
      rw [List.find?_eq_none]
      intro kv hmem hk
      exact h (List.any_eq_true.mpr ⟨kv, hmem, hk⟩)
    rw [getField, hnone]
    rfl

theorem getField_setField_ne (i : Issue) (k k2 : String) (v : FieldVal)
    (hne : ¬(k2 = k)) : getField (setField i k v) k2 = getField i k2 := by
  rw [setField]
  split_ifs with h
  · exact getField_mapset_ne k k2 v hne i
  · exact getField_append_single_ne k k2 v hne i

theorem getField_setField_isSome (i : Issue) (k k2 : String) (v : FieldVal)
    (h : (getField i k2).isSome) : (getField (setField i k v) k2).isSome := by
  by_cases he : k2 = k
  · subst he
    rw [getField_setField_self]
    rfl
  · rw [getField_setField_ne i k k2 v he]
    exact h

theorem getField_mergeFields_not_mem :
    ∀ (a : Analysis) (i : Issue) (k : String), (∀ kv ∈ a, ¬(kv.1 = k)) →
      getField (mergeFields i a) k = getField i k := by
  intro a
  induction a with
  | nil => intro i k _; rfl
  | cons kv0 rest ih =>
    intro i k h
    have h0 : ¬(kv0.1 = k) := h kv0 (List.mem_cons_self kv0 rest)
    have hrest : ∀ kv ∈ rest, ¬(kv.1 = k) := fun kv hm => h kv (List.mem_cons_of_mem _ hm)
    calc getField (mergeFields (setField i kv0.1 kv0.2) rest) k
        = getField (setField i kv0.1 kv0.2) k := ih _ k hrest
      _ = getField i k := getField_setField_ne i kv0.1 k kv0.2 (fun he => h0 he.symm)

theorem getField_mergeFields_mem :
    ∀ (a : Analysis) (i : Issue) (k : String) (v : FieldVal),
      (a.map Prod.fst).Nodup → (k, v) ∈ a →
      getField (mergeFields i a) k = some v := by
  intro a
  induction a with
  | nil => intro i k v _ hmem; simp at hmem
  | cons kv0 rest ih =>
    intro i k v hnd hmem
    rw [List.map_cons, List.nodup_cons] at hnd
    rcases List.mem_cons.mp hmem with rfl | hmem2
    · have hrest : ∀ kv ∈ rest, ¬(kv.1 = k) := by
        intro kv hm hk
        exact hnd.1 (List.mem_map.mpr ⟨kv, hm, hk⟩)
      calc getField (mergeFields (setField i k v) rest) k
          = getField (setField i k v) k := getField_mergeFields_not_mem rest _ k hrest
        _ = some v := getField_setField_self i k v
    · exact ih _ k v hnd.2 hmem2

theorem getField_mergeFields_isSome :
    ∀ (a : Analysis) (i : Issue) (k : String), (getField i k).isSome →
      (getField (mergeFields i a) k).isSome := by
  intro a
  induction a with
  | nil => intro i k h; exact h
  | cons kv0 rest ih =>
    intro i k h
    exact ih _ k (getField_setField_isSome i kv0.1 k kv0.2 h)

/-! ## Claim C8 -/

/-- C8: the field merge of `add_ai_analysis_to_issue` is additive — every
field of the analysis result (pydantic model fields have distinct names) is
written into the issue with its analysis value; every issue field whose name
is not among the result's fields keeps exactly its old value; and no field
is ever deleted (any key present before the merge is still present after
it). -/
theorem c8_merge_additive :
    (∀ (issue : Issue) (a : Analysis) (k : String) (v : FieldVal),
      (a.map Prod.fst).Nodup → (k, v) ∈ a →
      getField (mergeFields issue a) k = some v) ∧
    (∀ (issue : Issue) (a : Analysis) (k : String), (∀ kv ∈ a, ¬(kv.1 = k)) →
      getField (mergeFields issue a) k = getField issue k) ∧
    (∀ (issue : Issue) (a : Analysis) (k : String), (getField issue k).isSome →
      (getField (mergeFields issue a) k).isSome) :=
  ⟨fun issue a k v hnd hmem => getField_mergeFields_mem a issue k v hnd hmem,
   fun issue a k h => getField_mergeFields_not_mem a issue k h,
   fun issue a k h => getField_mergeFields_isSome a issue k h⟩

/-- Witness for C8 on a concrete issue and analysis: the analysis field is
written, the untouched issue field is preserved, and presence survives. -/
theorem c8_merge_additive_witness :
    getField (mergeFields [("summary", .str "s"), ("priority", .str "P1")]
      [("cause", .str "c"), ("fix", .str "f")]) "cause" = some (.str "c") ∧
    getField (mergeFields [("summary", .str "s"), ("priority", .str "P1")]
      [("cause", .str "c"), ("fix", .str "f")]) "summary" = some (.str "s") ∧
    (getField (mergeFields [("summary", .str "s"), ("priority", .str "P1")]
      [("cause", .str "c"), ("fix", .str "f")]) "priority").isSome :=
  ⟨c8_merge_additive.1 _ _ "cause" (.str "c") (by decide) (by decide),
   by
    rw [c8_merge_additive.2.1 _ _ "summary" (by decide)]
    rfl,
   c8_merge_additive.2.2 _ _ "priority" (by decide)⟩

/-! ## Supporting lemmas: the issue enricher -/

theorem addAi_fatal_eq (jiraUrl : String) (inv : Nat → AttemptOutcome) (issue : Issue)
    (d : List Nat) (n : Nat) (hrun : analyzeIssueWithAI inv = .fatal d n) :
    addAiAnalysisToIssue jiraUrl inv issue = .raisedUnauthorized := by
  simp only [addAiAnalysisToIssue, hrun]

theorem addAi_exhausted_eq (jiraUrl : String) (inv : Nat → AttemptOutcome) (issue : Issue)
    (d : List Nat) (n : Nat) (hrun : analyzeIssueWithAI inv = .exhausted d n) :
    addAiAnalysisToIssue jiraUrl inv issue =
      .done false (setField issue "ai_enriched" (.bool false)) true := by
  simp only [addAiAnalysisToIssue, hrun]

theorem addAi_success_eq (jiraUrl : String) (inv : Nat → AttemptOutcome) (issue : Issue)
    (a : Analysis) (d : List Nat) (n : Nat) (v : FieldVal)
    (hrun : analyzeIssueWithAI inv = .success a d n)
    (hv : getField (cleanTicket (mergeFields issue a)) "key" = some v) :
    addAiAnalysisToIssue jiraUrl inv issue =
      .done true (setField (setField (cleanTicket (mergeFields issue a)) "browsable_url"
        (.str (jiraUrl ++ "/browse/" ++ valToStr v))) "ai_enriched" (.bool true)) false := by
  simp only [addAiAnalysisToIssue, hrun, hv]

theorem cleanTicket_key_isSome (i : Issue) (k : String)
    (h : (getField i k).isSome) : (getField (cleanTicket i) k).isSome := by
  rw [cleanTicket]
  split_ifs
  · exact getField_setField_isSome i "ticket_number" k (.str "") h
  · exact h

theorem addAi_done_of (jiraUrl : String) (inv : Nat → AttemptOutcome) (issue : Issue)
    (hna : ∀ k, ¬(inv k = .unauthorized ∨ inv k = .err401))
    (hkey : (getField issue "key").isSome) :
    ∃ b i2 le, addAiAnalysisToIssue jiraUrl inv issue = .done b i2 le := by
  cases hrun : analyzeIssueWithAI inv with
  | fatal d n =>
    obtain ⟨k, hk⟩ := retryGo_fatal_unauth inv 3 3 0 [] d n hrun
    exact absurd hk (hna k)
  | exhausted d n =>
    exact ⟨false, _, true, addAi_exhausted_eq jiraUrl inv issue d n hrun⟩
  | success a d n =>
    have h2 : (getField (cleanTicket (mergeFields issue a)) "key").isSome :=
      cleanTicket_key_isSome _ "key" (getField_mergeFields_isSome a issue "key" hkey)
    obtain ⟨v, hv⟩ := Option.isSome_iff_exists.mp h2
    exact ⟨true, _, false, addAi_success_eq jiraUrl inv issue a d n v hrun hv⟩

/-! ## Claim C5 -/

/-- C5 counterexample: the enricher does not absorb every model failure
into the boolean contract — an unauthorized failure on the first attempt
propagates out of `add_ai_analysis_to_issue` as an exception instead of
producing a boolean return. -/
theorem c5_counterexample :
    addAiAnalysisToIssue "https://jira.example" (fun _ => .unauthorized)
      [("key", .str "K-1")] = .raisedUnauthorized := by
  decide

/-- C5 (amended): `add_ai_analysis_to_issue` absorbs every model and
validation failure except the fatal unauthorized one.  When the retry
controller returns `None` (exhausted), the enricher sets `ai_enriched` to
`False` on the issue, logs at error level, and returns `False` — this path
never raises, for any issue; when no attempt is classified unauthorized and
the issue carries its `key` field, the enricher returns a boolean; and when
the controller propagates the fatal unauthorized failure, the enricher
re-raises it instead of returning a boolean. -/
theorem c5_enrich_boolean (jiraUrl : String) (inv : Nat → AttemptOutcome) (issue : Issue) :
    (∀ d n, analyzeIssueWithAI inv = .exhausted d n →
      addAiAnalysisToIssue jiraUrl inv issue =
        .done false (setField issue "ai_enriched" (.bool false)) true) ∧
    ((∀ k, ¬(inv k = .unauthorized ∨ inv k = .err401)) → (getField issue "key").isSome →
      ∃ b i2 le, addAiAnalysisToIssue jiraUrl inv issue = .done b i2 le) ∧
    (∀ d n, analyzeIssueWithAI inv = .fatal d n →
      addAiAnalysisToIssue jiraUrl inv issue = .raisedUnauthorized) :=
  ⟨fun d n hrun => addAi_exhausted_eq jiraUrl inv issue d n hrun,
   fun hna hkey => addAi_done_of jiraUrl inv issue hna hkey,
   fun d n hrun => addAi_fatal_eq jiraUrl inv issue d n hrun⟩

/-- Witness for C5 (amended): an invoker whose three attempts all fail
validation makes the enricher mark the issue unenriched, log the error and
return `False`. -/
theorem c5_enrich_boolean_witness :
    addAiAnalysisToIssue "https://jira.example" (fun _ => .valueErr) [("key", .str "K-3")] =
      .done false (setField [("key", .str "K-3")] "ai_enriched" (.bool false)) true :=
  (c5_enrich_boolean "https://jira.example" (fun _ => .valueErr) [("key", .str "K-3")]).1
    [2, 4] 3 (by decide)

/-! ## Claim C6 -/

/-- A bug analysis with empty executive summary and empty fix but non-empty
technical summary and cause. -/
def c6BugIssue : Issue :=
  [("issuetype", .str "Bug"),
   ("technical_summary", .str "Null pointer in save handler"),
   ("executive_summary", .str ""),
   ("cause", .str "Missing null check"),
   ("fix", .str "")]

/-- C6 counterexample: the meaningful-content check accepts a bug analysis
whose executive summary and fix are empty, so it is not true that every
required bug field (executive summary, technical summary, cause and fix)
must be non-empty. -/
theorem c6_counterexample :
    hasMeaningfulContent c6BugIssue = true ∧
    stripChars (getStr c6BugIssue "executive_summary").toList = [] ∧
    stripChars (getStr c6BugIssue "fix").toList = [] := by
  refine ⟨by decide, by decide, by decide⟩

/-- C6 (amended): `_has_meaningful_content` accepts an issue exactly when
the required fields of its variant are non-empty after whitespace trimming
(non-empty for the category list) — but the required sets are: for bugs, a
non-empty technical summary together with a non-empty cause or fix (the
executive summary is not required); for epics, a non-empty technical or
executive summary; for every other type, non-empty reasoning and a
non-empty inferred-categories list.  Whitespace-only text in a checked
field counts as empty. -/
theorem c6_meaningful_content (issue : Issue) :
    (lowerAscii (getStr issue "issuetype") = "bug" →
      (hasMeaningfulContent issue = true ↔
        (stripChars (getStr issue "technical_summary").toList ≠ [] ∧
         (stripChars (getStr issue "cause").toList ≠ [] ∨
          stripChars (getStr issue "fix").toList ≠ [])))) ∧
    (lowerAscii (getStr issue "issuetype") = "epic" →
      (hasMeaningfulContent issue = true ↔
        (stripChars (getStr issue "technical_summary").toList ≠ [] ∨
         stripChars (getStr issue "executive_summary").toList ≠ []))) ∧
    (¬(lowerAscii (getStr issue "issuetype") = "bug") →
      ¬(lowerAscii (getStr issue "issuetype") = "epic") →
      (hasMeaningfulContent issue = true ↔
        (stripChars (getStr issue "reasoning").toList ≠ [] ∧
         getList issue "inferredCategories" ≠ []))) := by
  refine ⟨?_, ?_, ?_⟩
  · intro hbug
    simp [hasMeaningfulContent, hbug, List.isEmpty_iff]
  · intro hepic
    have : ¬(lowerAscii (getStr issue "issuetype") = "bug") := by
      rw [hepic]; decide
    simp [hasMeaningfulContent, hepic, this, List.isEmpty_iff]
  · intro hbug hepic
    simp [hasMeaningfulContent, hbug, hepic, List.isEmpty_iff]

/-- Witness for C6 (amended) on a bug issue with non-empty technical
summary and cause: accepted. -/
theorem c6_meaningful_content_witness :
    hasMeaningfulContent [("issuetype", .str "bug"),
      ("technical_summary", .str "T"), ("cause", .str "C")] = true :=
  ((c6_meaningful_content [("issuetype", .str "bug"),
      ("technical_summary", .str "T"), ("cause", .str "C")]).1 (by decide)).mpr
    (by decide)

/-! ## Claim C9 -/

/-- C9: for every issue successfully enriched by `add_ai_analysis_to_issue`,
if the merged ticket number matches the placeholder pattern `IP-\d+` (e.g.
`IP-42`) the ticket-number field is reset to the empty string post-merge,
regardless of what the model output; a merged ticket number that does not
match the pattern is left exactly as merged. -/
theorem c9_ticket_cleared (jiraUrl : String) (inv : Nat → AttemptOutcome) (issue : Issue)
    (a : Analysis) (d : List Nat) (n : Nat)
    (hrun : analyzeIssueWithAI inv = .success a d n)
    (hkey : (getField issue "key").isSome) :
    ∃ i2, addAiAnalysisToIssue jiraUrl inv issue = .done true i2 false ∧
      getField i2 "ticket_number" =
        (if matchesIP (getStr (mergeFields issue a) "ticket_number") then some (.str "")
         else getField (mergeFields issue a) "ticket_number") := by
  have h2 : (getField (cleanTicket (mergeFields issue a)) "key").isSome :=
    cleanTicket_key_isSome _ "key" (getField_mergeFields_isSome a issue "key" hkey)
  obtain ⟨v, hv⟩ := Option.isSome_iff_exists.mp h2
  refine ⟨_, addAi_success_eq jiraUrl inv issue a d n v hrun hv, ?_⟩
  rw [getField_setField_ne _ _ _ _ (by decide), getField_setField_ne _ _ _ _ (by decide)]
  rw [cleanTicket]
  split_ifs with hip
  · exact getField_setField_self _ _ _
  · rfl

/-- Witness for C9: the model outputs ticket number `IP-42`; after the
merge the enricher resets it to the empty string. -/
theorem c9_ticket_cleared_witness :
    ∃ i2, addAiAnalysisToIssue "https://j" (fun _ => .ok [("ticket_number", .str "IP-42")])
      [("key", .str "B-9")] = .done true i2 false ∧
      getField i2 "ticket_number" = some (.str "") := by
  obtain ⟨i2, h1, h2⟩ := c9_ticket_cleared "https://j"
    (fun _ => .ok [("ticket_number", .str "IP-42")]) [("key", .str "B-9")]
    [("ticket_number", .str "IP-42")] [] 1 (by decide) (by decide)
  refine ⟨i2, h1, ?_⟩
  rw [h2]
  decide

/-! ## Supporting lemmas: the batch coordinator -/

/-- Did the enrichment return `True`? -/
def enrichTrue : EnrichOut → Bool
  | .done b _ _ => b
  | _ => false

theorem gatherEnrich_complete (jiraUrl : String) (invs : Nat → Nat → AttemptOutcome) :
    ∀ l : List (Nat × Issue),
      (∀ p ∈ l, ∃ b i2 le, addAiAnalysisToIssue jiraUrl (invs p.1) p.2 = .done b i2 le) →
      ∃ pairs, gatherEnrich jiraUrl invs l = some pairs ∧
        pairs.length = l.length ∧
        (pairs.map (fun q => q.1)).count true =
          l.countP (fun p => enrichTrue (addAiAnalysisToIssue jiraUrl (invs p.1) p.2)) := by
  intro l
  induction l with
  | nil => exact fun _ => ⟨[], rfl, rfl, rfl⟩
  | cons p rest ih =>
    obtain ⟨i, iss⟩ := p
    intro h
    obtain ⟨b, i2, le, hp⟩ := h (i, iss) (List.mem_cons_self _ rest)
    have hp2 : addAiAnalysisToIssue jiraUrl (invs i) iss = .done b i2 le := hp
    obtain ⟨pairs, hg, hlen, hcount⟩ := ih (fun q hq => h q (List.mem_cons_of_mem _ hq))
    refine ⟨(b, i2) :: pairs, ?_, by simp [hlen], ?_⟩
    · simp only [gatherEnrich, hp2, hg]
    · rw [List.map_cons, List.count_cons, List.countP_cons, hcount]
      have he : enrichTrue (addAiAnalysisToIssue jiraUrl (invs (i, iss).1) (i, iss).2) = b := by
        rw [hp2]
        rfl
      rw [he]
      cases b <;> rfl

/-! ## Claim C7 -/

/-- C7: on a non-empty fetched issue set in which no model attempt is
unauthorized (individual `None` failures only), `fetch_and_analyze_issues`
enriches every fetched issue, gathers all per-issue booleans with no
short-circuit, reports `successful_enrichments` equal to the number of
enrichments that returned `True` and the total equal to the number of
fetched issues, and runs the persistence phase exactly once, after all
enrichments, on the final issue list. -/
theorem c7_batch_counts (jiraUrl : String) (cfg : BatchConfig)
    (invs : Nat → Nat → AttemptOutcome) (parsed : List Issue)
    (hne : parsed ≠ [])
    (hna : ∀ i k, ¬(invs i k = .unauthorized ∨ invs i k = .err401))
    (hkeys : ∀ iss ∈ parsed, (getField iss "key").isSome) :
    ∃ r, fetchAndAnalyzeIssues jiraUrl cfg invs parsed = .completed r ∧
      r.totalCount = parsed.length ∧
      r.successCount = parsed.enum.countP
        (fun p => enrichTrue (addAiAnalysisToIssue jiraUrl (invs p.1) p.2)) ∧
      r.issues.length = parsed.length ∧
      r.saveCalls = localSaveCalls cfg ∧
      (0 < localSaveCalls cfg → r.savedIssues = some r.issues) := by
  have hall : ∀ p ∈ parsed.enum,
      ∃ b i2 le, addAiAnalysisToIssue jiraUrl (invs p.1) p.2 = .done b i2 le := by
    intro p hp
    refine addAi_done_of jiraUrl (invs p.1) p.2 (fun k => hna p.1 k) ?_
    have hmem : p.2 ∈ parsed := by
      rw [← List.enum_map_snd parsed]
      exact List.mem_map.mpr ⟨p, hp, rfl⟩
    exact hkeys _ hmem
  obtain ⟨pairs, hg, hlen, hcount⟩ := gatherEnrich_complete jiraUrl invs parsed.enum hall
  have hempty : parsed.isEmpty = false := by
    cases parsed with
    | nil => exact absurd rfl hne
    | cons a l => rfl
  refine ⟨{ successCount := (pairs.map (fun q => q.1)).count true
            totalCount := parsed.length
            issues := pairs.map (fun q => q.2)
            savedIssues := if localSaveCalls cfg > 0 then some (pairs.map (fun q => q.2))
              else none
            saveCalls := localSaveCalls cfg }, ?_, rfl, hcount, ?_, rfl, ?_⟩
  · simp only [fetchAndAnalyzeIssues, hempty, hg, Bool.false_eq_true, if_false]
  · simp [hlen, List.enum_length]
  · intro h
    simp only [if_pos h]

/-- The 5-issue witness scenario: issues 0 and 1 enrich successfully, the
other three fail validation on every attempt and come back `None`. -/
def c7Issues : List Issue :=
  [[("key", .str "A-1")], [("key", .str "A-2")], [("key", .str "A-3")],
   [("key", .str "A-4")], [("key", .str "A-5")]]

def c7Invs : Nat → Nat → AttemptOutcome :=
  fun i _ => if i < 2 then .ok [("reasoning", .str "r")] else .valueErr

/-- Witness for C7: 5 issues, 2 enrichment successes and 3 `None` failures
still complete the batch with success count 2, total count 5, and one local
save call. -/
theorem c7_batch_counts_witness :
    ∃ r, fetchAndAnalyzeIssues "https://j" ⟨true, ["json"]⟩ c7Invs c7Issues = .completed r ∧
      r.successCount = 2 ∧ r.totalCount = 5 ∧ r.saveCalls = 1 := by
  obtain ⟨r, hc, ht, hs, hlen, hcalls, hsave⟩ :=
    c7_batch_counts "https://j" ⟨true, ["json"]⟩ c7Invs c7Issues (by decide)
      (by
        intro i k h
        rcases h with h | h <;> revert h <;> unfold c7Invs <;> split <;> decide)
      (by decide)
  refine ⟨r, hc, ?_, ?_, ?_⟩
  · rw [hs]
    decide
  · rw [ht]
    decide
  · rw [hcalls]
    decide

/-! ## Claim C10 -/

/-- C10: when the fetched issue set is empty, `fetch_and_analyze_issues`
returns early with the bare `return` of line 427 — no persistence phase
runs (no files written, no wiki pages created) and the normal status result
is never produced; a completed result (the only outcome whose persistence
phase runs) can only arise from a non-empty issue set. -/
theorem c10_empty_no_persistence :
    (∀ jiraUrl cfg invs, fetchAndAnalyzeIssues jiraUrl cfg invs [] = .emptyReturn) ∧
    (∀ jiraUrl cfg invs (parsed : List Issue) r, parsed = [] →
      ¬(fetchAndAnalyzeIssues jiraUrl cfg invs parsed = .completed r)) := by
  constructor
  · intro jiraUrl cfg invs
    rfl
  · intro jiraUrl cfg invs parsed r hp h
    subst hp
    simp [fetchAndAnalyzeIssues] at h

/-- Witness for C10 at a concrete configuration: the empty issue set
produces the early return and not a completed (persisted) result. -/
theorem c10_empty_no_persistence_witness :
    fetchAndAnalyzeIssues "https://j" ⟨true, ["json"]⟩ (fun _ _ => .timeout) [] =
      .emptyReturn ∧
    ¬(fetchAndAnalyzeIssues "https://j" ⟨true, ["json"]⟩ (fun _ _ => .timeout) [] =
      .completed ⟨0, 0, [], none, 0⟩) :=
  ⟨c10_empty_no_persistence.1 "https://j" ⟨true, ["json"]⟩ (fun _ _ => .timeout),
   c10_empty_no_persistence.2 "https://j" ⟨true, ["json"]⟩ (fun _ _ => .timeout) [] _ rfl⟩

end ReleaseNotes
